import Mathlib

/-!
Verification of the HTML-Content-Checker batch pipeline
(`src/contentchecker.py`) against its natural-language specification.

The shallow embedding below translates the three core functions of the
source, `fetch_product_page`, `check_product_content` and `process_skus`,
into pure Lean functions.

Modelling decisions, each tied to a construct of the source:

* An HTTP GET (`session.get(url, timeout=TIMEOUT)`) is modelled by an
  oracle `net : Nat → HttpResult` giving, for the n-th GET issued by one
  identifier's pipeline, either a response (status plus parsed page), a
  timeout (`asyncio.TimeoutError`) or a generic transport exception.
* A successfully fetched page is a `Page`: `findLink` abstracts
  `BeautifulSoup(html).find('a', id=...)` followed by the `has_attr('href')`
  test (it yields the `href` value exactly when an anchor with the given id
  and an `href` attribute exists), and `text` is the raw body used by the
  marker test `'lp-container' in html`.
* Observable side effects of one pipeline (GET requests with their timeout,
  and the backoff `asyncio.sleep(1)`) are collected in a `List Event` trace.
* A Python exception escaping a function is an `Except.error`.  The only
  escaping exception in the modelled code is the `NameError` on the unbound
  `search_url` when `option != "efacil"` (raised again while formatting the
  log message inside the `except` handler, hence uncaught).
* `asyncio.as_completed` yields the group's results in an arbitrary
  completion order; it is modelled by a parameter
  `reorder : Nat → List (Nat × String) → List (Nat × String)` giving, for
  each group counter, the order in which that group's tasks complete.
  Faithful instantiations are permutations (hypothesis
  `∀ g l, List.Perm (reorder g l) l`); nondeterminism never crosses a group
  boundary because the source awaits a whole group before building the next.
* `progress_callback(i + 1)` is a side effect; the embedding accumulates the
  arguments of the successive calls in a `List Nat` returned next to the
  result list.
-/

namespace ContentChecker

/-- `BATCH_SIZE = 50` from the source. -/
def BATCH_SIZE : Nat := 50

/-- `RETRY_COUNT = 3` from the source. -/
def RETRY_COUNT : Nat := 3

/-- `TIMEOUT = 30` (seconds, per-request) from the source. -/
def TIMEOUT : Nat := 30

/-- Abstraction of a fetched, parsed page (see the module docstring). -/
structure Page where
  findLink : String → Option String
  text : String

/-- Outcome of one HTTP GET, as seen by the code under `try`. -/
inductive HttpResult where
  | resp (status : Nat) (page : Page)
  | timeout
  | exn

/-- Observable side effects of a pipeline: a GET (with its per-request
timeout in seconds) or a backoff sleep (with its duration in seconds). -/
inductive Event where
  | get (url : String) (timeoutSecs : Nat)
  | sleepEv (secs : Nat)
deriving DecidableEq, Repr

/-- A Python exception escaping a function. -/
inductive PyError where
  | nameError (name : String)
deriving DecidableEq, Repr

/-- A result record as built by the source: (SKU code, last attempted URL,
status string `"Sim"` / `"Não"` / `"Erro"`). -/
abbrev Rec := String × String × String

/-- Python's substring test `needle in hay` (used as
`'lp-container' in html`); for a non-empty needle, `hay.splitOn needle`
has at least two pieces exactly when the needle occurs. -/
def containsSubstr (needle hay : String) : Bool :=
  1 < (hay.splitOn needle).length

/-- The search URL built at line 47 of the source:
`f"{base_url}/loja/busca/?searchTerm={code}"`. -/
def efacil_search_url (base_url code : String) : String :=
  s!"{base_url}/loja/busca/?searchTerm={code}"

/-- Embedding of `check_product_content` (source lines 74-102): one GET on
the product URL, `"Sim"` on 200 with the `'lp-container'` marker, `"Não"`
on 200 without it, `"Erro"` on any other status, timeout or exception.
`k` is the index of the next GET in the pipeline's oracle. -/
def check_product_content (net : Nat → HttpResult) (k : Nat)
    (product_url code : String) : Rec × List Event :=
  match net k with
  | .resp status page =>
      if status = 200 then
        ((code, product_url,
          if containsSubstr "lp-container" page.text then "Sim" else "Não"),
         [Event.get product_url TIMEOUT])
      else ((code, product_url, "Erro"), [Event.get product_url TIMEOUT])
  | .timeout => ((code, product_url, "Erro"), [Event.get product_url TIMEOUT])
  | .exn => ((code, product_url, "Erro"), [Event.get product_url TIMEOUT])

/-- Embedding of the `for attempt in range(retries)` loop of
`fetch_product_page` (source lines 49-72), entered with `search_url`
bound.  `k` indexes the next GET in the oracle, the second argument is
the number of remaining attempts.  On a 200 response the loop either
chains into `check_product_content` (link present, line 63), or returns
`"Erro"` at once (link absent, line 66, or the dead non-`"efacil"` branch
at line 59).  Any other GET outcome falls through to
`await asyncio.sleep(1)` (line 71) and the next attempt; when the
attempts are exhausted, line 72 returns `"Erro"`. -/
def fetchLoop (net : Nat → HttpResult) (base_url code option search_url : String) :
    Nat → Nat → Rec × List Event
  | _, 0 => ((code, search_url, "Erro"), [])
  | k, r + 1 =>
    match net k with
    | .resp status page =>
        if status = 200 then
          if option = "efacil" then
            match page.findLink s!"btn_skuP{code}" with
            | some href =>
                let product_url := base_url ++ href
                let out := check_product_content net (k + 1) product_url code
                (out.1, Event.get search_url TIMEOUT :: out.2)
            | none => ((code, search_url, "Erro"), [Event.get search_url TIMEOUT])
          else ((code, search_url, "Erro"), [Event.get search_url TIMEOUT])
        else
          let out := fetchLoop net base_url code option search_url (k + 1) r
          (out.1, Event.get search_url TIMEOUT :: Event.sleepEv 1 :: out.2)
    | .timeout =>
        let out := fetchLoop net base_url code option search_url (k + 1) r
        (out.1, Event.get search_url TIMEOUT :: Event.sleepEv 1 :: out.2)
    | .exn =>
        let out := fetchLoop net base_url code option search_url (k + 1) r
        (out.1, Event.get search_url TIMEOUT :: Event.sleepEv 1 :: out.2)

/-- Embedding of `fetch_product_page` (source lines 20-72).  Line 46 binds
`search_url` only when `option == "efacil"`; for any other option the first
use of `search_url` raises `NameError`, which the `except Exception`
handler at line 69 re-raises while formatting its log message (line 70
reads `search_url` again), so it escapes the function before any GET or
sleep happens. -/
def fetch_product_page (net : Nat → HttpResult) (base_url code option : String)
    (retries : Nat) : Except PyError (Rec × List Event) :=
  if option = "efacil" then
    .ok (fetchLoop net base_url code option (efacil_search_url base_url code) 0 retries)
  else
    .error (.nameError "search_url")

/-- The behaviour of `fetch_product_page` for option `"efacil"` with the
default `retries=RETRY_COUNT`, as a total function (it never raises). -/
def efacil_fetch (net : Nat → HttpResult) (base_url code : String) : Rec × List Event :=
  fetchLoop net base_url code "efacil" (efacil_search_url base_url code) 0 RETRY_COUNT

/-- The fixed site table of `process_skus` (source lines 124-127). -/
def base_urls : List (String × String) :=
  [("martins", "https://www.martinsatacado.com.br"),
   ("efacil", "https://www.efacil.com.br")]

/-- `base_urls.get(option, "")` (source line 128). -/
def resolvedBase (option : String) : String :=
  (base_urls.lookup option).getD ""

/-- Embedding of the inner `for task in asyncio.as_completed(tasks)` loop
(source lines 137-140): the group's tasks, already put in completion order,
are awaited one by one; each awaited result is appended to `results` and
then `progress_callback(i + 1)` fires, where `i` is the outer-loop index
frozen at the flush.  An exception raised by an awaited task escapes at
once. -/
def runGroup (base_url option : String) (nets : Nat → Nat → HttpResult) (i : Nat) :
    List (Nat × String) → List Rec → List Nat → Except PyError (List Rec × List Nat)
  | [], results, progress => .ok (results, progress)
  | (j, code) :: rest, results, progress =>
    match fetch_product_page (nets j) base_url code option RETRY_COUNT with
    | .error e => .error e
    | .ok out => runGroup base_url option nets i rest
        (results ++ [out.1]) (progress ++ [i + 1])

/-- Embedding of the `for i, code in enumerate(codes)` loop of
`process_skus` (source lines 134-141) over the still-unprocessed
enumerated codes.  A task is appended for each code; when the pending
group reaches `BATCH_SIZE` or the last code has been appended
(`i == len(codes) - 1`, i.e. nothing remains), the group is flushed
through `runGroup` in the completion order given by `reorder`, and
`tasks.clear()` resets the pending list. -/
def process_skus_go (base_url option : String) (nets : Nat → Nat → HttpResult)
    (reorder : Nat → List (Nat × String) → List (Nat × String)) :
    Nat → List (Nat × String) → List (Nat × String) → List Rec → List Nat →
      Except PyError (List Rec × List Nat)
  | _, _, [], results, progress => .ok (results, progress)
  | g, tasks, (i, code) :: rest, results, progress =>
    let tasks2 := tasks ++ [(i, code)]
    if BATCH_SIZE ≤ tasks2.length ∨ rest = [] then
      match runGroup base_url option nets i (reorder g tasks2) results progress with
      | .error e => .error e
      | .ok rp => process_skus_go base_url option nets reorder (g + 1) [] rest rp.1 rp.2
    else
      process_skus_go base_url option nets reorder g tasks2 rest results progress

/-- Embedding of `process_skus` (source lines 104-143).  Returns the
accumulated result records together with the list of arguments passed to
`progress_callback`, or the escaping exception.  `nets j` is the GET
oracle of the pipeline spawned for the code at input position `j`. -/
def process_skus (option : String) (codes : List String)
    (nets : Nat → Nat → HttpResult)
    (reorder : Nat → List (Nat × String) → List (Nat × String)) :
    Except PyError (List Rec × List Nat) :=
  let base_url := resolvedBase option
  if base_url = "" then .ok ([], [])
  else process_skus_go base_url option nets reorder 0 [] codes.enum [] []

/-- Is this trace event a GET request? -/
def isGetEv : Event → Bool
  | .get _ _ => true
  | .sleepEv _ => false

/-- Is this trace event a backoff sleep? -/
def isSleepEv : Event → Bool
  | .get _ _ => false
  | .sleepEv _ => true

/-- Number of GET requests in a trace. -/
def numGets (tr : List Event) : Nat := (tr.filter isGetEv).length

/-- Number of backoff sleeps in a trace. -/
def numSleeps (tr : List Event) : Nat := (tr.filter isSleepEv).length

/-- A GET outcome eligible for retry at the search stage (spec §4.2 steps
4-5): anything other than a status-200 response. -/
def isTransient : HttpResult → Bool
  | .resp status _ => status != 200
  | .timeout => true
  | .exn => true

/-- The trace of `r` all-transient search attempts: each failed attempt
issues one GET and then one backoff sleep (including after the final
attempt). -/
def transientTrace (u : String) : Nat → List Event
  | 0 => []
  | r + 1 => Event.get u TIMEOUT :: Event.sleepEv 1 :: transientTrace u r

/-- The contiguous groups of size `BATCH_SIZE` (the last possibly smaller)
that the scheduler's flush condition carves out of a list. -/
def chunks50 {α : Type _} : List α → List (List α)
  | [] => []
  | a :: as => ((a :: as).take BATCH_SIZE) :: chunks50 ((a :: as).drop BATCH_SIZE)
termination_by l => l.length
decreasing_by simp [BATCH_SIZE]; omega

/-- The input-list position (`i` of the construction loop) of the last
identifier dispatched into a group of enumerated tasks. -/
def lastIdx (ts : List (Nat × String)) : Nat :=
  ((ts.getLast?).map Prod.fst).getD 0

/-- Spec-side view of the scheduler output (spec §4.4): for each group in
order, the group's records in completion order, concatenated. -/
def groupRecs (base_url : String) (nets : Nat → Nat → HttpResult)
    (reorder : Nat → List (Nat × String) → List (Nat × String)) :
    Nat → List (List (Nat × String)) → List Rec
  | _, [] => []
  | g, ts :: rest =>
      (reorder g ts).map (fun q => (efacil_fetch (nets q.1) base_url q.2).1) ++
        groupRecs base_url nets reorder (g + 1) rest

/-- Spec-side view of the progress-callback arguments: each group
contributes one call per completion, all with the same value
`lastIdx ts + 1` — one plus the input position of the last identifier
dispatched into that group. -/
def groupProg (reorder : Nat → List (Nat × String) → List (Nat × String)) :
    Nat → List (List (Nat × String)) → List Nat
  | _, [] => []
  | g, ts :: rest =>
      List.replicate (reorder g ts).length (lastIdx ts + 1) ++
        groupProg reorder (g + 1) rest

/-- Closed form of the progress-callback arguments for an input of raw
codes starting at dispatch position `i`: a group of size
`k = min BATCH_SIZE (remaining count)` contributes `k` calls with the
value `i + k` (one plus the zero-based input position of its last
dispatched identifier), after which the count restarts at `i + k`;
so consecutive groups' values rise by exactly the later group's size. -/
def progSpec : Nat → List String → List Nat
  | _, [] => []
  | i, a :: as =>
      List.replicate (min BATCH_SIZE (a :: as).length)
          (i + min BATCH_SIZE (a :: as).length) ++
        progSpec (i + min BATCH_SIZE (a :: as).length) ((a :: as).drop BATCH_SIZE)
termination_by _ l => l.length
decreasing_by simp [BATCH_SIZE]; omega

/-- The spec's classification rule for the check stage (spec §4.3): Found
(`"Sim"`) on success with the marker, NotFound (`"Não"`) on success
without it, Error (`"Erro"`) on non-success status, timeout or
exception. -/
def checkClassSpec : HttpResult → String
  | .resp status page =>
      if status = 200 then
        if containsSubstr "lp-container" page.text then "Sim" else "Não"
      else "Erro"
  | .timeout => "Erro"
  | .exn => "Erro"

/-! Helper lemmas about the per-identifier pipeline. -/

lemma fetch_product_page_efacil (net : Nat → HttpResult) (base code : String)
    (retries : Nat) :
    fetch_product_page net base code "efacil" retries =
      .ok (fetchLoop net base code "efacil" (efacil_search_url base code) 0 retries) :=
  rfl

lemma fetch_product_page_efacil_default (net : Nat → HttpResult) (base code : String) :
    fetch_product_page net base code "efacil" RETRY_COUNT =
      .ok (efacil_fetch net base code) :=
  rfl

lemma fetch_product_page_ne_efacil (net : Nat → HttpResult) (base code option : String)
    (retries : Nat) (hopt : option ≠ "efacil") :
    fetch_product_page net base code option retries = .error (.nameError "search_url") := by
  simp [fetch_product_page, hopt]

lemma fetchLoop_transient (net : Nat → HttpResult) (b c u : String) :
    ∀ r k : Nat, (∀ j, j < r → isTransient (net (k + j)) = true) →
      fetchLoop net b c "efacil" u k r = ((c, u, "Erro"), transientTrace u r) := by
  intro r
  induction r with
  | zero => intro k _; rfl
  | succ r ih =>
    intro k h
    have h0 : isTransient (net k) = true := by
      have := h 0 (by omega)
      simpa using this
    have hrec : ∀ j, j < r → isTransient (net (k + 1 + j)) = true := by
      intro j hj
      have hkj := h (j + 1) (by omega)
      have e : k + (j + 1) = k + 1 + j := by omega
      rwa [e] at hkj
    cases hnk : net k with
    | resp status page =>
      have hs : ¬ status = 200 := by
        rw [hnk] at h0
        simpa [isTransient] using h0
      simp [fetchLoop, hnk, hs, ih (k + 1) hrec, transientTrace]
    | timeout => simp [fetchLoop, hnk, ih (k + 1) hrec, transientTrace]
    | exn => simp [fetchLoop, hnk, ih (k + 1) hrec, transientTrace]

lemma numGets_transientTrace (u : String) : ∀ r, numGets (transientTrace u r) = r := by
  intro r
  induction r with
  | zero => rfl
  | succ r ih => simp [transientTrace, numGets, isGetEv, isSleepEv] at ih ⊢; omega

lemma numSleeps_transientTrace (u : String) : ∀ r, numSleeps (transientTrace u r) = r := by
  intro r
  induction r with
  | zero => rfl
  | succ r ih => simp [transientTrace, numSleeps, isGetEv, isSleepEv] at ih ⊢; omega

lemma check_product_content_shape (net : Nat → HttpResult) (k : Nat) (purl c : String) :
    ∃ st, (check_product_content net k purl c).1 = (c, purl, st) ∧
      (st = "Sim" ∨ st = "Não" ∨ st = "Erro") := by
  unfold check_product_content
  cases net k with
  | resp status page =>
    by_cases hs : status = 200
    · by_cases hm : containsSubstr "lp-container" page.text = true
      · exact ⟨"Sim", by simp [hs, hm], by tauto⟩
      · exact ⟨"Não", by simp [hs, hm], by tauto⟩
    · simp [hs]
  | timeout => simp
  | exn => simp

lemma fetchLoop_shape (net : Nat → HttpResult) (b c opt u : String) :
    ∀ r k : Nat, ∃ url st, (fetchLoop net b c opt u k r).1 = (c, url, st) ∧
      (st = "Sim" ∨ st = "Não" ∨ st = "Erro") := by
  intro r
  induction r with
  | zero => intro k; exact ⟨u, "Erro", rfl, by tauto⟩
  | succ r ih =>
    intro k
    cases hnk : net k with
    | resp status page =>
      by_cases hs : status = 200
      · by_cases hopt : opt = "efacil"
        · cases hfl : page.findLink s!"btn_skuP{c}" with
          | some href =>
            obtain ⟨st, hst, hmem⟩ :=
              check_product_content_shape net (k + 1) (b ++ href) c
            exact ⟨b ++ href, st, by simp [fetchLoop, hnk, hs, hopt, hfl, hst], hmem⟩
          | none => exact ⟨u, "Erro", by simp [fetchLoop, hnk, hs, hopt, hfl], by tauto⟩
        · exact ⟨u, "Erro", by simp [fetchLoop, hnk, hs, hopt], by tauto⟩
      · obtain ⟨url, st, hst, hmem⟩ := ih (k + 1)
        exact ⟨url, st, by simp [fetchLoop, hnk, hs, hst], hmem⟩
    | timeout =>
      obtain ⟨url, st, hst, hmem⟩ := ih (k + 1)
      exact ⟨url, st, by simp [fetchLoop, hnk, hst], hmem⟩
    | exn =>
      obtain ⟨url, st, hst, hmem⟩ := ih (k + 1)
      exact ⟨url, st, by simp [fetchLoop, hnk, hst], hmem⟩

/-! Helper lemmas about the scheduler. -/

lemma runGroup_efacil (base : String) (nets : Nat → Nat → HttpResult) (i : Nat) :
    ∀ (ordered : List (Nat × String)) (results : List Rec) (progress : List Nat),
      runGroup base "efacil" nets i ordered results progress =
        .ok (results ++ ordered.map (fun q => (efacil_fetch (nets q.1) base q.2).1),
             progress ++ List.replicate ordered.length (i + 1)) := by
  intro ordered
  induction ordered with
  | nil => intro results progress; simp [runGroup]
  | cons q rest ih =>
    intro results progress
    obtain ⟨j, c⟩ := q
    rw [runGroup, fetch_product_page_efacil_default]
    show runGroup base "efacil" nets i rest
        (results ++ [(efacil_fetch (nets j) base c).1]) (progress ++ [i + 1]) = _
    rw [ih (results ++ [(efacil_fetch (nets j) base c).1]) (progress ++ [i + 1])]
    simp [List.replicate_succ]

/-- One round of the construction loop, seen from a state with fewer than
`BATCH_SIZE` pending tasks and at least one remaining code: the next group
to be flushed is exactly the pending tasks plus the next
`BATCH_SIZE - tasks.length` codes (or all remaining codes if fewer), and
the loop continues on what is left after them. -/
lemma process_skus_go_step (base option : String) (nets : Nat → Nat → HttpResult)
    (reorder : Nat → List (Nat × String) → List (Nat × String)) :
    ∀ (rem tasks : List (Nat × String)) (g : Nat) (results : List Rec)
      (progress : List Nat), tasks.length < BATCH_SIZE → rem ≠ [] →
      process_skus_go base option nets reorder g tasks rem results progress =
        match runGroup base option nets
                (lastIdx (tasks ++ rem.take (BATCH_SIZE - tasks.length)))
                (reorder g (tasks ++ rem.take (BATCH_SIZE - tasks.length)))
                results progress with
        | .error e => .error e
        | .ok rp => process_skus_go base option nets reorder (g + 1) []
            (rem.drop (BATCH_SIZE - tasks.length)) rp.1 rp.2 := by
  intro rem
  induction rem with
  | nil => intro tasks g results progress _ hne; exact absurd rfl hne
  | cons p rest ih =>
    intro tasks g results progress hlen _
    obtain ⟨i, c⟩ := p
    by_cases hflush : BATCH_SIZE ≤ (tasks ++ [(i, c)]).length ∨ rest = []
    · have hsub : tasks ++ ((i, c) :: rest).take (BATCH_SIZE - tasks.length) =
            tasks ++ [(i, c)] ∧
          ((i, c) :: rest).drop (BATCH_SIZE - tasks.length) = rest := by
        rcases hflush with hbig | hrest
        · have h1 : BATCH_SIZE - tasks.length = 1 := by
            simp only [List.length_append, List.length_singleton] at hbig
            omega
          rw [h1]
          simp
        · subst hrest
          obtain ⟨mm, hm⟩ : ∃ mm, BATCH_SIZE - tasks.length = mm + 1 :=
            ⟨BATCH_SIZE - tasks.length - 1, by omega⟩
          rw [hm]
          simp
      have hlast : lastIdx (tasks ++ [(i, c)]) = i := by
        simp [lastIdx, List.getLast?_concat]
      rw [hsub.1, hsub.2, hlast]
      rw [process_skus_go, if_pos hflush]
    · rw [not_or] at hflush
      obtain ⟨hsmall, hrest⟩ := hflush
      have hlen2 : (tasks ++ [(i, c)]).length < BATCH_SIZE := by omega
      have hih := ih (tasks ++ [(i, c)]) g results progress hlen2 hrest
      have hlapp : (tasks ++ [(i, c)]).length = tasks.length + 1 := by simp
      rw [hlapp] at hih
      have harith : BATCH_SIZE - tasks.length = (BATCH_SIZE - (tasks.length + 1)) + 1 := by
        omega
      rw [process_skus_go, if_neg (not_or.mpr ⟨hsmall, hrest⟩)]
      rw [hih, harith, List.take_succ_cons, List.drop_succ_cons]
      simp [List.append_assoc]

lemma runGroup_ne_efacil (base option : String) (nets : Nat → Nat → HttpResult)
    (i j : Nat) (c : String) (rest : List (Nat × String))
    (results : List Rec) (progress : List Nat) (hopt : option ≠ "efacil") :
    runGroup base option nets i ((j, c) :: rest) results progress =
      .error (.nameError "search_url") := by
  rw [runGroup, fetch_product_page_ne_efacil (nets j) base c option RETRY_COUNT hopt]

/-- The construction loop started with an empty pending list flushes
exactly the `BATCH_SIZE`-chunks of the remaining enumerated codes, in
order; for option `"efacil"` every pipeline returns normally, so the run
appends each group's records in completion order and one progress call
per completion carrying the group's flush position. -/
lemma process_skus_go_efacil (base : String) (nets : Nat → Nat → HttpResult)
    (reorder : Nat → List (Nat × String) → List (Nat × String)) :
    ∀ (n : Nat) (rem : List (Nat × String)), rem.length ≤ n →
      ∀ (g : Nat) (results : List Rec) (progress : List Nat),
      process_skus_go base "efacil" nets reorder g [] rem results progress =
        .ok (results ++ groupRecs base nets reorder g (chunks50 rem),
             progress ++ groupProg reorder g (chunks50 rem)) := by
  intro n
  induction n with
  | zero =>
    intro rem hlen g results progress
    have hnil : rem = [] := by
      cases rem with
      | nil => rfl
      | cons p rest => simp at hlen
    subst hnil
    simp [process_skus_go, chunks50, groupRecs, groupProg]
  | succ n ih =>
    intro rem hlen g results progress
    cases rem with
    | nil => simp [process_skus_go, chunks50, groupRecs, groupProg]
    | cons p rest =>
      have hrest : rest.length ≤ n := by
        simp only [List.length_cons] at hlen
        omega
      rw [process_skus_go_step base "efacil" nets reorder (p :: rest) [] g results
            progress (by simp [BATCH_SIZE]) (by simp)]
      simp only [List.length_nil, Nat.sub_zero, List.nil_append]
      rw [runGroup_efacil]
      show process_skus_go base "efacil" nets reorder (g + 1) []
          ((p :: rest).drop BATCH_SIZE) _ _ = _
      rw [ih ((p :: rest).drop BATCH_SIZE)
            (by simp only [List.length_drop, List.length_cons, BATCH_SIZE]; omega) (g + 1) _ _]
      rw [chunks50]
      simp only [groupRecs, groupProg, List.append_assoc]

/-- The whole run for option `"efacil"`: the records are the group-order
concatenation of each group's completion-order records, and the progress
calls are, per group, one call per completion with value
`lastIdx group + 1`. -/
lemma process_skus_efacil (codes : List String) (nets : Nat → Nat → HttpResult)
    (reorder : Nat → List (Nat × String) → List (Nat × String)) :
    process_skus "efacil" codes nets reorder =
      .ok (groupRecs "https://www.efacil.com.br" nets reorder 0 (chunks50 codes.enum),
           groupProg reorder 0 (chunks50 codes.enum)) := by
  have hstep : process_skus "efacil" codes nets reorder =
      process_skus_go "https://www.efacil.com.br" "efacil" nets reorder 0 [] codes.enum [] [] :=
    rfl
  rw [hstep, process_skus_go_efacil "https://www.efacil.com.br" nets reorder
        codes.enum.length codes.enum le_rfl 0 [] []]
  rfl

/-- With an option that resolves but is not `"efacil"`, a run over a
non-empty code list dies on the first completion of the first group: the
awaited task re-raises the `NameError` on `search_url`. -/
lemma process_skus_ne_efacil (option : String) (hopt : option ≠ "efacil")
    (hbase : resolvedBase option ≠ "") (codes : List String) (hne : codes ≠ [])
    (nets : Nat → Nat → HttpResult)
    (reorder : Nat → List (Nat × String) → List (Nat × String))
    (hperm : ∀ g l, List.Perm (reorder g l) l) :
    process_skus option codes nets reorder = .error (.nameError "search_url") := by
  simp only [process_skus]
  rw [if_neg hbase]
  have henum : codes.enum ≠ [] := by
    intro h
    have := congrArg List.length h
    rw [List.enum_length] at this
    exact hne (List.eq_nil_of_length_eq_zero this)
  rw [process_skus_go_step (resolvedBase option) option nets reorder codes.enum []
        0 [] [] (by simp [BATCH_SIZE]) henum]
  have hchunk : codes.enum.take (BATCH_SIZE - ([] : List (Nat × String)).length) ≠ [] := by
    simp only [List.length_nil, Nat.sub_zero]
    rw [Ne, List.take_eq_nil_iff]
    rintro (h50 | h)
    · simp [BATCH_SIZE] at h50
    · exact henum h
  have hord : reorder 0 ([] ++ codes.enum.take (BATCH_SIZE - ([] : List (Nat × String)).length)) ≠ [] := by
    intro h
    have hp := hperm 0 ([] ++ codes.enum.take (BATCH_SIZE - ([] : List (Nat × String)).length))
    rw [h] at hp
    exact hchunk (by simpa using hp.symm.eq_nil)
  cases hord2 : reorder 0 ([] ++ codes.enum.take (BATCH_SIZE - ([] : List (Nat × String)).length)) with
  | nil => exact absurd hord2 hord
  | cons q rest =>
    obtain ⟨j, c⟩ := q
    rw [runGroup_ne_efacil _ option nets _ j c rest [] [] hopt]

/-- An option key absent from the site table makes `process_skus` return
an empty record list and make no progress call, with no error signal. -/
lemma process_skus_unresolved (option : String) (hbase : resolvedBase option = "")
    (codes : List String) (nets : Nat → Nat → HttpResult)
    (reorder : Nat → List (Nat × String) → List (Nat × String)) :
    process_skus option codes nets reorder = .ok ([], []) := by
  simp only [process_skus]
  rw [if_pos hbase]

/-! Structural facts about the chunk decomposition and the progress
values. -/

lemma chunks50_flatten {α : Type _} : ∀ (n : Nat) (l : List α), l.length ≤ n →
    (chunks50 l).flatten = l := by
  intro n
  induction n with
  | zero =>
    intro l h
    cases l with
    | nil => simp [chunks50]
    | cons a as => simp at h
  | succ n ih =>
    intro l h
    cases l with
    | nil => simp [chunks50]
    | cons a as =>
      rw [chunks50, List.flatten_cons,
        ih ((a :: as).drop BATCH_SIZE)
          (by simp only [List.length_drop, List.length_cons, BATCH_SIZE] at h ⊢; omega)]
      exact List.take_append_drop _ _

lemma chunks50_mem {α : Type _} : ∀ (n : Nat) (l : List α), l.length ≤ n →
    ∀ c ∈ chunks50 l, c ≠ [] ∧ c.length ≤ BATCH_SIZE := by
  intro n
  induction n with
  | zero =>
    intro l h c hc
    cases l with
    | nil => simp [chunks50] at hc
    | cons a as => simp at h
  | succ n ih =>
    intro l h c hc
    cases l with
    | nil => simp [chunks50] at hc
    | cons a as =>
      rw [chunks50] at hc
      rcases List.mem_cons.mp hc with hhead | htail
      · subst hhead
        constructor
        · rw [Ne, List.take_eq_nil_iff]
          rintro (h0 | h0)
          · simp [BATCH_SIZE] at h0
          · exact List.noConfusion h0
        · rw [List.length_take]
          omega
      · exact ih ((a :: as).drop BATCH_SIZE)
          (by simp only [List.length_drop, List.length_cons, BATCH_SIZE] at h ⊢; omega) c htail

lemma groupRecs_length (base : String) (nets : Nat → Nat → HttpResult)
    (reorder : Nat → List (Nat × String) → List (Nat × String))
    (hperm : ∀ g l, List.Perm (reorder g l) l) :
    ∀ (cs : List (List (Nat × String))) (g : Nat),
      (groupRecs base nets reorder g cs).length = (cs.map List.length).sum := by
  intro cs
  induction cs with
  | nil => intro g; simp [groupRecs]
  | cons ts rest ih =>
    intro g
    simp [groupRecs, ih (g + 1), (hperm g ts).length_eq]

lemma enumFrom_take {α : Type _} : ∀ (l : List α) (n i : Nat),
    (List.enumFrom i l).take n = List.enumFrom i (l.take n) := by
  intro l
  induction l with
  | nil => intro n i; simp
  | cons a as ih =>
    intro n i
    cases n with
    | zero => simp
    | succ n =>
      show (i, a) :: (List.enumFrom (i + 1) as).take n = _
      rw [ih n (i + 1)]
      rfl

lemma enumFrom_drop {α : Type _} : ∀ (l : List α) (n i : Nat),
    (List.enumFrom i l).drop n = List.enumFrom (i + n) (l.drop n) := by
  intro l
  induction l with
  | nil => intro n i; simp
  | cons a as ih =>
    intro n i
    cases n with
    | zero => simp
    | succ n =>
      show (List.enumFrom (i + 1) as).drop n = _
      rw [ih n (i + 1), show i + 1 + n = i + (n + 1) from by omega]
      rfl

lemma lastIdx_enumFrom : ∀ (l : List String) (i : Nat), l ≠ [] →
    lastIdx (List.enumFrom i l) = i + l.length - 1 := by
  intro l
  induction l with
  | nil => intro i h; exact absurd rfl h
  | cons a as ih =>
    intro i _
    cases as with
    | nil => simp [List.enumFrom, lastIdx]
    | cons b bs =>
      have h3 : lastIdx (List.enumFrom i (a :: b :: bs)) =
          lastIdx (List.enumFrom (i + 1) (b :: bs)) := by
        show lastIdx ((i, a) :: (i + 1, b) :: List.enumFrom (i + 2) bs) = _
        simp [lastIdx, List.getLast?_cons_cons]
      rw [h3, ih (i + 1) (by simp)]
      simp only [List.length_cons]
      omega

lemma groupProg_progSpec (reorder : Nat → List (Nat × String) → List (Nat × String))
    (hperm : ∀ g l, List.Perm (reorder g l) l) :
    ∀ (n : Nat) (codes : List String), codes.length ≤ n → ∀ (i g : Nat),
      groupProg reorder g (chunks50 (List.enumFrom i codes)) = progSpec i codes := by
  intro n
  induction n with
  | zero =>
    intro codes h i g
    cases codes with
    | nil => simp [chunks50, groupProg, progSpec, List.enumFrom]
    | cons a as => simp at h
  | succ n ih =>
    intro codes h i g
    cases codes with
    | nil => simp [chunks50, groupProg, progSpec, List.enumFrom]
    | cons a as =>
      have hunf : chunks50 (List.enumFrom i (a :: as)) =
          (List.enumFrom i (a :: as)).take BATCH_SIZE ::
            chunks50 ((List.enumFrom i (a :: as)).drop BATCH_SIZE) := by
        show chunks50 ((i, a) :: List.enumFrom (i + 1) as) = _
        rw [chunks50]
        rfl
      rw [hunf, enumFrom_take, enumFrom_drop]
      simp only [groupProg]
      have hmin1 : 1 ≤ min BATCH_SIZE (a :: as).length := by
        simp [BATCH_SIZE]
      have hk : (reorder g (List.enumFrom i ((a :: as).take BATCH_SIZE))).length =
          min BATCH_SIZE (a :: as).length := by
        rw [(hperm g _).length_eq, List.enumFrom_length, List.length_take]
      have hlast : lastIdx (List.enumFrom i ((a :: as).take BATCH_SIZE)) + 1 =
          i + min BATCH_SIZE (a :: as).length := by
        rw [lastIdx_enumFrom _ i
              (by rw [Ne, List.take_eq_nil_iff]
                  rintro (h0 | h0)
                  · simp [BATCH_SIZE] at h0
                  · exact List.noConfusion h0),
            List.length_take]
        omega
      rw [hk, hlast]
      by_cases hbig : (a :: as).length ≤ BATCH_SIZE
      · have hdrop : (a :: as).drop BATCH_SIZE = [] := List.drop_eq_nil_iff.mpr hbig
        rw [hdrop, show List.enumFrom (i + BATCH_SIZE) ([] : List String) = [] from rfl]
        simp only [chunks50, groupProg, List.append_nil, progSpec, hdrop]
      · have hB : min BATCH_SIZE (a :: as).length = BATCH_SIZE :=
          Nat.min_eq_left (by omega)
        rw [hB]
        rw [ih ((a :: as).drop BATCH_SIZE)
              (by simp only [List.length_drop, List.length_cons, BATCH_SIZE] at h ⊢; omega)
              (i + BATCH_SIZE) (g + 1)]
        simp only [progSpec, hB]

lemma progSpec_lb : ∀ (n : Nat) (l : List String), l.length ≤ n →
    ∀ i x, x ∈ progSpec i l → i + 1 ≤ x := by
  intro n
  induction n with
  | zero =>
    intro l h i x hx
    cases l with
    | nil => simp [progSpec] at hx
    | cons a as => simp at h
  | succ n ih =>
    intro l h i x hx
    cases l with
    | nil => simp [progSpec] at hx
    | cons a as =>
      simp only [progSpec] at hx
      rcases List.mem_append.mp hx with hrep | htail
      · have := List.eq_of_mem_replicate hrep
        subst this
        have : 1 ≤ min BATCH_SIZE (a :: as).length := by simp [BATCH_SIZE]
        omega
      · have := ih ((a :: as).drop BATCH_SIZE)
          (by simp only [List.length_drop, List.length_cons, BATCH_SIZE] at h ⊢; omega)
          (i + min BATCH_SIZE (a :: as).length) x htail
        omega

lemma progSpec_pairwise : ∀ (n : Nat) (l : List String), l.length ≤ n →
    ∀ i, List.Pairwise (· ≤ ·) (progSpec i l) := by
  intro n
  induction n with
  | zero =>
    intro l h i
    cases l with
    | nil => simp [progSpec]
    | cons a as => simp at h
  | succ n ih =>
    intro l h i
    cases l with
    | nil => simp [progSpec]
    | cons a as =>
      have hlen : ((a :: as).drop BATCH_SIZE).length ≤ n := by
        simp only [List.length_drop, List.length_cons, BATCH_SIZE] at h ⊢; omega
      simp only [progSpec]
      rw [List.pairwise_append]
      refine ⟨List.pairwise_replicate.mpr (Or.inr le_rfl),
        ih ((a :: as).drop BATCH_SIZE) hlen (i + min BATCH_SIZE (a :: as).length),
        fun x hx y hy => ?_⟩
      have hxv := List.eq_of_mem_replicate hx
      subst hxv
      have := progSpec_lb n ((a :: as).drop BATCH_SIZE) hlen
        (i + min BATCH_SIZE (a :: as).length) y hy
      omega

lemma progSpec_getLast? : ∀ (n : Nat) (l : List String), l.length ≤ n → l ≠ [] →
    ∀ i, (progSpec i l).getLast? = some (i + l.length) := by
  intro n
  induction n with
  | zero =>
    intro l h hne i
    cases l with
    | nil => exact absurd rfl hne
    | cons a as => simp at h
  | succ n ih =>
    intro l h hne i
    cases l with
    | nil => exact absurd rfl hne
    | cons a as =>
      simp only [progSpec]
      by_cases hbig : (a :: as).length ≤ BATCH_SIZE
      · have hdrop : (a :: as).drop BATCH_SIZE = [] := List.drop_eq_nil_iff.mpr hbig
        have hmin : min BATCH_SIZE (a :: as).length = (a :: as).length :=
          Nat.min_eq_right hbig
        rw [hdrop]
        simp only [progSpec, List.append_nil, hmin, List.getLast?_replicate]
        simp
      · have hlen : ((a :: as).drop BATCH_SIZE).length ≤ n := by
          simp only [List.length_drop, List.length_cons, BATCH_SIZE] at h ⊢; omega
        have hdne : (a :: as).drop BATCH_SIZE ≠ [] := by
          rw [Ne, List.drop_eq_nil_iff]
          omega
        have htail := ih ((a :: as).drop BATCH_SIZE) hlen hdne
          (i + min BATCH_SIZE (a :: as).length)
        have hor : ∀ (v : Nat) (o : Option Nat), (some v).or o = some v := fun _ _ => rfl
        have hB : min BATCH_SIZE (a :: as).length = BATCH_SIZE :=
          Nat.min_eq_left (by omega)
        rw [List.getLast?_append, htail, hor]
        simp only [Option.some.injEq, List.length_drop, hB]
        omega

/-! The claims. -/

/-- Claim C1, counterexample: with the default three attempts all timing
out, the `"efacil"` search performs exactly 3 attempts and the record is
classified `"Erro"`, as the claim says — but 3 backoff sleeps occur, not
2: the code sleeps after the final failed attempt as well (line 71 runs on
every failed attempt), so sleeps do not happen only between consecutive
attempts. -/
theorem claim1_counterexample :
    fetch_product_page (fun _ => HttpResult.timeout) "https://www.efacil.com.br" "12345"
        "efacil" RETRY_COUNT =
      .ok (("12345", "https://www.efacil.com.br/loja/busca/?searchTerm=12345", "Erro"),
        transientTrace "https://www.efacil.com.br/loja/busca/?searchTerm=12345" RETRY_COUNT) ∧
    numGets (transientTrace "https://www.efacil.com.br/loja/busca/?searchTerm=12345"
      RETRY_COUNT) = 3 ∧
    numSleeps (transientTrace "https://www.efacil.com.br/loja/busca/?searchTerm=12345"
      RETRY_COUNT) = 3 ∧
    numSleeps (transientTrace "https://www.efacil.com.br/loja/busca/?searchTerm=12345"
      RETRY_COUNT) ≠ 2 :=
  ⟨rfl, rfl, rfl, by decide⟩

/-- Claim C1, amended: for a search whose first `r` GETs are all transient
(timeout, non-200 status, or exception), the `"efacil"` pipeline makes
exactly `r` attempts and returns an `"Erro"` record, with one fixed
1-second backoff sleep after every failed attempt including the final one
— so all `r` attempts failing gives exactly `r` GETs and `r` sleeps. -/
theorem claim1_retry_attempts_and_sleeps (net : Nat → HttpResult) (base code : String)
    (r : Nat) (htrans : ∀ j, j < r → isTransient (net j) = true) :
    fetch_product_page net base code "efacil" r =
      .ok ((code, efacil_search_url base code, "Erro"),
        transientTrace (efacil_search_url base code) r) ∧
    numGets (transientTrace (efacil_search_url base code) r) = r ∧
    numSleeps (transientTrace (efacil_search_url base code) r) = r := by
  refine ⟨?_, numGets_transientTrace _ r, numSleeps_transientTrace _ r⟩
  rw [fetch_product_page_efacil]
  rw [fetchLoop_transient net base code (efacil_search_url base code) r 0
        (by intro j hj; simpa using htrans j hj)]

/-- Claim C1, witness: the amended statement at three timeouts. -/
theorem claim1_retry_attempts_and_sleeps_witness :
    fetch_product_page (fun _ => HttpResult.timeout) "https://www.efacil.com.br" "99"
        "efacil" 3 =
      .ok (("99", efacil_search_url "https://www.efacil.com.br" "99", "Erro"),
        transientTrace (efacil_search_url "https://www.efacil.com.br" "99") 3) ∧
    numGets (transientTrace (efacil_search_url "https://www.efacil.com.br" "99") 3) = 3 ∧
    numSleeps (transientTrace (efacil_search_url "https://www.efacil.com.br" "99") 3) = 3 :=
  claim1_retry_attempts_and_sleeps (fun _ => HttpResult.timeout)
    "https://www.efacil.com.br" "99" 3 (fun _ _ => rfl)

/-- Claim C2, counterexample: the claim quantifies over any option whose
base URL resolves, but for option `"martins"` — which does resolve in the
site table — every pipeline raises (the modelled `NameError` on the
never-assigned `search_url`) instead of returning a terminal
classification. -/
theorem claim2_counterexample :
    resolvedBase "martins" = "https://www.martinsatacado.com.br" ∧
    fetch_product_page (fun _ => HttpResult.timeout) "https://www.martinsatacado.com.br"
      "12345" "martins" RETRY_COUNT = .error (.nameError "search_url") :=
  ⟨rfl, rfl⟩

/-- Claim C2, amended: for option `"efacil"`, any identifier, any attempt
budget and any sequence of HTTP responses or exceptions, the
per-identifier pipeline always returns normally, with exactly one terminal
classification among `"Sim"`, `"Não"` and `"Erro"`. -/
theorem claim2_no_escape_efacil (net : Nat → HttpResult) (base code : String) (r : Nat) :
    ∃ url st trace, fetch_product_page net base code "efacil" r =
        .ok ((code, url, st), trace) ∧
      (st = "Sim" ∨ st = "Não" ∨ st = "Erro") := by
  obtain ⟨url, st, hst, hmem⟩ :=
    fetchLoop_shape net base code "efacil" (efacil_search_url base code) r 0
  cases hx : fetchLoop net base code "efacil" (efacil_search_url base code) 0 r with
  | mk rec0 tr =>
    rw [hx] at hst
    have hrec : rec0 = (code, url, st) := hst
    refine ⟨url, st, tr, ?_, hmem⟩
    rw [fetch_product_page_efacil, hx, hrec]

/-- Claim C4, counterexample: on an unrecognized key the run does return
zero records before processing any identifier, but the claimed non-silent
fatal signal does not exist: the run returns the plain success value
`([], [])` — the very same value a legitimate run over an empty input
returns — so the failure is indistinguishable from an ordinary empty
success. -/
theorem claim4_counterexample :
    process_skus "amazon" ["12345"] (fun _ _ => HttpResult.timeout) (fun _ l => l) =
      .ok ([], []) ∧
    process_skus "efacil" [] (fun _ _ => HttpResult.timeout) (fun _ l => l) =
      .ok ([], []) ∧
    process_skus "amazon" ["12345"] (fun _ _ => HttpResult.timeout) (fun _ l => l) =
      process_skus "efacil" [] (fun _ _ => HttpResult.timeout) (fun _ l => l) :=
  ⟨rfl, rfl, rfl⟩

/-- Claim C4, amended: for an unrecognized SiteProfile key and any
identifier list, the run terminates immediately before processing any
identifier, returning zero records and making zero progress calls, and it
never produces per-identifier `"Erro"` records; the failure is silent,
however: the function returns a normal empty success, with no distinct
run-level failure signal. -/
theorem claim4_unknown_key_silent (option : String) (codes : List String)
    (nets : Nat → Nat → HttpResult)
    (reorder : Nat → List (Nat × String) → List (Nat × String))
    (hbad : resolvedBase option = "") :
    process_skus option codes nets reorder = .ok ([], []) :=
  process_skus_unresolved option hbad codes nets reorder

/-- Claim C4, witness: the amended statement at an unknown key. -/
theorem claim4_unknown_key_silent_witness :
    process_skus "americanas" ["1", "2"] (fun _ _ => HttpResult.exn)
      (fun _ l => l.reverse) = .ok ([], []) :=
  claim4_unknown_key_silent "americanas" ["1", "2"] (fun _ _ => HttpResult.exn)
    (fun _ l => l.reverse) (by decide)

/-- Claim C5: the check stage issues exactly one GET, carrying the fixed
30-second timeout, and never retries whatever the outcome; the resulting
record carries the code, the product URL, and exactly the spec's
classification — `"Sim"` on 200 with the `'lp-container'` marker, `"Não"`
on 200 without it, `"Erro"` on any other status, timeout or exception. -/
theorem claim5_check_single_get (net : Nat → HttpResult) (k : Nat)
    (product_url code : String) :
    (check_product_content net k product_url code).2 =
      [Event.get product_url TIMEOUT] ∧
    (check_product_content net k product_url code).1 =
      (code, product_url, checkClassSpec (net k)) := by
  cases hnk : net k with
  | resp status page =>
    by_cases hs : status = 200 <;>
      simp [check_product_content, checkClassSpec, hnk, hs]
  | timeout => simp [check_product_content, checkClassSpec, hnk]
  | exn => simp [check_product_content, checkClassSpec, hnk]

/-- Claim C6: a search attempt that gets a 200 response whose page has no
usable product link returns an `"Erro"` record immediately: exactly one
GET happens, no backoff sleep, and no further attempt is consumed, for
any remaining attempt budget. -/
theorem claim6_absent_link_no_retry (net : Nat → HttpResult) (base code : String)
    (r : Nat) (page : Page) (h200 : net 0 = HttpResult.resp 200 page)
    (hnolink : page.findLink s!"btn_skuP{code}" = none) :
    fetch_product_page net base code "efacil" (r + 1) =
      .ok ((code, efacil_search_url base code, "Erro"),
        [Event.get (efacil_search_url base code) TIMEOUT]) ∧
    numGets [Event.get (efacil_search_url base code) TIMEOUT] = 1 ∧
    numSleeps [Event.get (efacil_search_url base code) TIMEOUT] = 0 := by
  refine ⟨?_, rfl, rfl⟩
  rw [fetch_product_page_efacil]
  simp [fetchLoop, h200, hnolink]

/-- Claim C6, witness: a 200 response with a linkless page at the default
attempt budget. -/
theorem claim6_absent_link_no_retry_witness :
    fetch_product_page (fun _ => HttpResult.resp 200 ⟨fun _ => none, ""⟩)
        "https://www.efacil.com.br" "12345" "efacil" 3 =
      .ok (("12345", efacil_search_url "https://www.efacil.com.br" "12345", "Erro"),
        [Event.get (efacil_search_url "https://www.efacil.com.br" "12345") TIMEOUT]) ∧
    numGets [Event.get (efacil_search_url "https://www.efacil.com.br" "12345") TIMEOUT] = 1 ∧
    numSleeps [Event.get (efacil_search_url "https://www.efacil.com.br" "12345") TIMEOUT] = 0 :=
  claim6_absent_link_no_retry (fun _ => HttpResult.resp 200 ⟨fun _ => none, ""⟩)
    "https://www.efacil.com.br" "12345" 2 ⟨fun _ => none, ""⟩ rfl rfl

/-- Claim C9: option `"martins"` resolves in the site table, yet the
pipeline never builds a search URL — the assignment happens only for
`"efacil"` — so the first attempt raises the `NameError` that the logging
handler re-raises; it escapes the pipeline for any oracle, identifier and
attempt budget, and a whole run over a non-empty list aborts with that
error, producing no record for the identifier. -/
theorem claim9_martins_name_error (net : Nat → HttpResult) (code : String) (r : Nat)
    (codes : List String) (hne : codes ≠ [])
    (nets : Nat → Nat → HttpResult)
    (reorder : Nat → List (Nat × String) → List (Nat × String))
    (hperm : ∀ g l, List.Perm (reorder g l) l) :
    resolvedBase "martins" = "https://www.martinsatacado.com.br" ∧
    fetch_product_page net "https://www.martinsatacado.com.br" code "martins" r =
      .error (.nameError "search_url") ∧
    process_skus "martins" codes nets reorder = .error (.nameError "search_url") :=
  ⟨rfl, rfl,
    process_skus_ne_efacil "martins" (by decide) (by decide) codes hne nets reorder hperm⟩

/-- Claim C9, witness: the statement at a singleton identifier list. -/
theorem claim9_martins_name_error_witness :
    resolvedBase "martins" = "https://www.martinsatacado.com.br" ∧
    fetch_product_page (fun _ => HttpResult.timeout) "https://www.martinsatacado.com.br"
      "12345" "martins" 3 = .error (.nameError "search_url") ∧
    process_skus "martins" ["12345"] (fun _ _ => HttpResult.timeout) (fun _ l => l) =
      .error (.nameError "search_url") :=
  claim9_martins_name_error (fun _ => HttpResult.timeout) "12345" 3 ["12345"]
    (by decide) (fun _ _ => HttpResult.timeout) (fun _ l => l)
    (fun _ _ => List.Perm.refl _)

/-- Claim C3: with per-group completion orders that are permutations, a
run that returns normally yields exactly one record per input identifier
(duplicates included) whenever the SiteProfile key resolves, and zero
records when it does not. -/
theorem claim3_record_count (option : String) (codes : List String)
    (nets : Nat → Nat → HttpResult)
    (reorder : Nat → List (Nat × String) → List (Nat × String))
    (res : List Rec) (prog : List Nat)
    (hperm : ∀ g l, List.Perm (reorder g l) l)
    (hok : process_skus option codes nets reorder = .ok (res, prog)) :
    (resolvedBase option ≠ "" → res.length = codes.length) ∧
    (resolvedBase option = "" → res = []) := by
  by_cases hbad : resolvedBase option = ""
  · rw [process_skus_unresolved option hbad codes nets reorder] at hok
    simp only [Except.ok.injEq, Prod.mk.injEq] at hok
    exact ⟨fun hres => absurd hbad hres, fun _ => hok.1.symm⟩
  · refine ⟨fun _ => ?_, fun hres => absurd hres hbad⟩
    by_cases hopt : option = "efacil"
    · subst hopt
      rw [process_skus_efacil codes nets reorder] at hok
      simp only [Except.ok.injEq, Prod.mk.injEq] at hok
      rw [← hok.1, groupRecs_length _ nets reorder hperm _ 0]
      calc ((chunks50 codes.enum).map List.length).sum
          = (chunks50 codes.enum).flatten.length := (List.length_flatten _).symm
        _ = codes.enum.length := by
              rw [chunks50_flatten codes.enum.length codes.enum le_rfl]
        _ = codes.length := List.enum_length
    · cases hcodes : codes with
      | nil =>
        subst hcodes
        have hrun : process_skus option [] nets reorder = .ok ([], []) := by
          simp only [process_skus]
          rw [if_neg hbad]
          rfl
        rw [hrun] at hok
        simp only [Except.ok.injEq, Prod.mk.injEq] at hok
        rw [← hok.1]
        rfl
      | cons a as =>
        subst hcodes
        rw [process_skus_ne_efacil option hopt hbad _ (by simp) nets reorder hperm] at hok
        exact Except.noConfusion hok

/-- Claim C3, witness: a successful two-identifier run. -/
theorem claim3_record_count_witness :
    (resolvedBase "efacil" ≠ "" →
      ([("11", "https://www.efacil.com.br/loja/busca/?searchTerm=11", "Erro"),
        ("22", "https://www.efacil.com.br/loja/busca/?searchTerm=22", "Erro")] :
          List Rec).length = (["11", "22"] : List String).length) ∧
    (resolvedBase "efacil" = "" →
      ([("11", "https://www.efacil.com.br/loja/busca/?searchTerm=11", "Erro"),
        ("22", "https://www.efacil.com.br/loja/busca/?searchTerm=22", "Erro")] :
          List Rec) = []) :=
  claim3_record_count "efacil" ["11", "22"] (fun _ _ => HttpResult.timeout)
    (fun _ l => l) _ [2, 2] (fun _ _ => List.Perm.refl _) rfl

/-- Claim C7: every progress call of a run that returns normally carries
the construction-loop counter frozen at the group's flush: the callback
arguments are exactly, group by group, one call per completion, each with
the value `lastIdx group + 1` — the one-based input position of the last
identifier dispatched into that group — and never the number of
completions so far. -/
theorem claim7_progress_dispatch_counter (codes : List String)
    (nets : Nat → Nat → HttpResult)
    (reorder : Nat → List (Nat × String) → List (Nat × String))
    (res : List Rec) (prog : List Nat)
    (hok : process_skus "efacil" codes nets reorder = .ok (res, prog)) :
    prog = groupProg reorder 0 (chunks50 codes.enum) := by
  rw [process_skus_efacil codes nets reorder] at hok
  simp only [Except.ok.injEq, Prod.mk.injEq] at hok
  exact hok.2.symm

/-- Claim C7, witness: in a one-group run over two identifiers both
callback arguments are the dispatch counter 2, not the completion counts
1 and 2. -/
theorem claim7_progress_dispatch_counter_witness :
    ([2, 2] : List Nat) =
      groupProg (fun _ l => l) 0 (chunks50 (["11", "22"] : List String).enum) :=
  claim7_progress_dispatch_counter ["11", "22"] (fun _ _ => HttpResult.timeout)
    (fun _ l => l) _ [2, 2] rfl

/-- Claim C8: the scheduler partitions the enumerated input into the
contiguous chunks of at most `BATCH_SIZE` (their concatenation is the
input and none is empty), and the run's output is exactly the group-order
concatenation of each group's records taken in that group's completion
order; the completion-order nondeterminism (`reorder`) is scoped to one
group at a time — groups are strictly sequential, so no more than one
group's `BATCH_SIZE` pipelines are ever in flight. -/
theorem claim8_batch_partition (codes : List String)
    (nets : Nat → Nat → HttpResult)
    (reorder : Nat → List (Nat × String) → List (Nat × String)) :
    process_skus "efacil" codes nets reorder =
      .ok (groupRecs "https://www.efacil.com.br" nets reorder 0 (chunks50 codes.enum),
           groupProg reorder 0 (chunks50 codes.enum)) ∧
    (chunks50 codes.enum).flatten = codes.enum ∧
    (∀ c ∈ chunks50 codes.enum, c ≠ [] ∧ c.length ≤ BATCH_SIZE) :=
  ⟨process_skus_efacil codes nets reorder,
   chunks50_flatten codes.enum.length codes.enum le_rfl,
   chunks50_mem codes.enum.length codes.enum le_rfl⟩

/-- Claim C10: in a run that returns normally with permutation completion
orders, the progress values are exactly `progSpec 0 codes` — per group of
size `k`, `k` identical calls carrying one plus the input-list index of
the group's last dispatched identifier — hence they are non-decreasing,
rise by exactly the group's size from one group to the next (visible in
`progSpec`, whose value steps from `i + k` to `(i + k) + next k`), and the
final value is the input length. -/
theorem claim10_progress_values (codes : List String)
    (nets : Nat → Nat → HttpResult)
    (reorder : Nat → List (Nat × String) → List (Nat × String))
    (res : List Rec) (prog : List Nat)
    (hperm : ∀ g l, List.Perm (reorder g l) l)
    (hok : process_skus "efacil" codes nets reorder = .ok (res, prog)) :
    prog = progSpec 0 codes ∧
    List.Pairwise (· ≤ ·) prog ∧
    (codes ≠ [] → prog.getLast? = some codes.length) := by
  rw [process_skus_efacil codes nets reorder] at hok
  simp only [Except.ok.injEq, Prod.mk.injEq] at hok
  have hprog : prog = progSpec 0 codes := by
    rw [← hok.2, show codes.enum = List.enumFrom 0 codes from rfl]
    exact groupProg_progSpec reorder hperm codes.length codes le_rfl 0 0
  refine ⟨hprog, ?_, ?_⟩
  · rw [hprog]
    exact progSpec_pairwise codes.length codes le_rfl 0
  · intro hne
    rw [hprog, progSpec_getLast? codes.length codes le_rfl hne 0]
    simp

/-- Claim C10, witness: the statement at a successful two-identifier
run. -/
theorem claim10_progress_values_witness :
    ([2, 2] : List Nat) = progSpec 0 ["11", "22"] ∧
    List.Pairwise (· ≤ ·) ([2, 2] : List Nat) ∧
    ((["11", "22"] : List String) ≠ [] → ([2, 2] : List Nat).getLast? = some 2) :=
  claim10_progress_values ["11", "22"] (fun _ _ => HttpResult.timeout) (fun _ l => l)
    _ [2, 2] (fun _ _ => List.Perm.refl _) rfl

end ContentChecker
